import Mathlib

/-!
# Verification of the selfie local-first data layer

Shallow embedding of the repository's data layer:

* `SQLiteAdapter` CRUD primitives (src/lib/db/sqlite-adapter.ts):
  records are dynamic JS objects flowing into SQL statements; we model a
  JS/SQLite value, an object as an association list with JS spread
  semantics (`oset`), a table as a list of rows, and each CRUD method as a
  function on tables.  The nondeterministic inputs of the real code — the
  generated uuid (`uuidv4()`) and the clock reading (`Date.now()`) — are
  passed as explicit parameters.
* `SyncManager` (src/lib/db/sync-manager.ts): the download pass of
  `syncTable` and the status bookkeeping of `sync()`.
* `MigrationManager` (src/lib/db/migration-manager.ts): the structural
  convergence loop of `applyMigrations`, modelled at the level of the
  introspected store metadata it consults (table names, column names,
  index names) together with the append-only migration log.

Booleans bound into SQL statements are stored as the integers 0/1: every
declared BOOLEAN column is provisioned as an INTEGER column by the
migration engine's type map, and all three drivers bind JS booleans
numerically.  `toSql` performs that conversion at the statement boundary.
-/

namespace Selfie

/-- A JS / SQLite value as it appears in the records the adapter moves
around: strings, integer numbers (epoch-millisecond timestamps, counters),
booleans (before binding), and null. -/
inductive Val where
  | vStr (s : String)
  | vInt (n : Int)
  | vBool (b : Bool)
  | vNull
  deriving DecidableEq, Repr

open Val

/-- Conversion applied when a JS value is bound into a SQL statement:
booleans are stored as the integers 0/1 (SQLite has no boolean storage
class; the schema maps BOOLEAN columns to INTEGER). -/
def toSql : Val → Val
  | vBool b => vInt (if b then 1 else 0)
  | v => v

/-- A JS object / SQL row: an association list of field name to value.
JS objects have unique keys; lookups take the first match. -/
abbrev Obj := List (String × Val)

/-- A table of the local store: its rows in insertion order. -/
abbrev Table := List Obj

/-- Field lookup (`o[k]`): first entry with the key. -/
def oget (k : String) : Obj → Option Val
  | [] => none
  | (k', v) :: rest => if k' = k then some v else oget k rest

/-- Field assignment with JS object-spread semantics: an existing key keeps
its position and gets the new value, a new key is appended. -/
def oset (o : Obj) (k : String) (v : Val) : Obj :=
  match o with
  | [] => [(k, v)]
  | (k', v') :: rest => if k' = k then (k, v) :: rest else (k', v') :: oset rest k v

/-- Bind every field of an object into SQL storage form. -/
def toRow (o : Obj) : Obj := o.map (fun kv => (kv.1, toSql kv.2))

/-- Apply a list of SET assignments left to right.  A SQL `UPDATE` with the
same column assigned more than once keeps only the rightmost assignment
(SQLite: all but the rightmost occurrence are ignored), which is exactly
what a left-to-right overwrite of constant assignments computes. -/
def applyAssigns (l : List (String × Val)) (r : Obj) : Obj :=
  l.foldl (fun acc kv => oset acc kv.1 kv.2) r

/-! ## SQLiteAdapter CRUD (sqlite-adapter.ts) -/

/-- `insert(tableName, data)`: builds
`{...data, id: uuidv4(), created_at: now, updated_at: now, synced: false,
deleted: false}` — the system fields are spread *after* `data`, so they
overwrite any identically-named fields the caller supplied — and executes
an `INSERT` of all fields.  The INSERT fails (propagating to the caller)
when the `id` primary key is already present; other declared-schema
constraints are not consulted by the adapter code and are out of scope
here.  Returns the new table and the generated id. -/
def insert (tbl : Table) (data : Obj) (freshId : String) (now : Int) :
    Except String (Table × String) :=
  let record :=
    oset (oset (oset (oset (oset data "id" (vStr freshId))
      "created_at" (vInt now)) "updated_at" (vInt now))
      "synced" (vBool false)) "deleted" (vBool false)
  if tbl.any (fun r => decide (oget "id" r = some (vStr freshId))) then
    .error "UNIQUE constraint failed: id"
  else
    .ok (tbl ++ [toRow record], freshId)

/-- `update(tableName, id, data)`: executes
`UPDATE t SET k1 = ?, …, kn = ?, updated_at = ?, synced = 0 WHERE id = ?`
with the supplied fields followed by the unconditional stamps.  Rightmost
assignment wins per column.  Rows whose id does not match are untouched;
a missing id makes the statement a no-op, not an error. -/
def update (tbl : Table) (id : String) (data : Obj) (now : Int) : Table :=
  let assigns := toRow data ++ [("updated_at", vInt now), ("synced", vInt 0)]
  tbl.map (fun r =>
    if oget "id" r = some (vStr id) then applyAssigns assigns r else r)

/-- `delete(tableName, id)`: soft delete —
`UPDATE t SET deleted = 1, synced = 0, updated_at = ? WHERE id = ?`. -/
def delete (tbl : Table) (id : String) (now : Int) : Table :=
  tbl.map (fun r =>
    if oget "id" r = some (vStr id) then
      oset (oset (oset r "deleted" (vInt 1)) "synced" (vInt 0)) "updated_at" (vInt now)
    else r)

/-- `findById(tableName, id)`:
`SELECT * FROM t WHERE id = ? AND deleted = 0`, first row or null. -/
def findById (tbl : Table) (id : String) : Option Obj :=
  tbl.find? (fun r =>
    decide (oget "id" r = some (vStr id)) && decide (oget "deleted" r = some (vInt 0)))

/-- `markAsSynced(tableName, ids)`:
`UPDATE t SET synced = 1 WHERE id IN (…)`; early return on an empty list
(same resulting table). -/
def markAsSynced (tbl : Table) (ids : List String) : Table :=
  if ids.isEmpty then tbl
  else
    tbl.map (fun r =>
      if ids.any (fun i => decide (oget "id" r = some (vStr i))) then
        oset r "synced" (vInt 1)
      else r)

/-! ### Ordering (`ORDER BY`) -/

/-- Insert into a list sorted by `le`, keeping existing order among
equivalent keys. -/
def insertSorted (le : Obj → Obj → Bool) (x : Obj) : List Obj → List Obj
  | [] => [x]
  | y :: ys => if le x y then x :: y :: ys else y :: insertSorted le x ys

/-- Sort by `le` (insertion sort); any sort respecting the key comparator
is a valid refinement of SQL `ORDER BY`, whose tie order is unspecified. -/
def sortByLe (le : Obj → Obj → Bool) : List Obj → List Obj
  | [] => []
  | x :: xs => insertSorted le x (sortByLe le xs)

/-- SQLite cross-type comparison order, restricted to the values we store:
NULL before numbers before text. -/
def valLe : Val → Val → Bool
  | vNull, _ => true
  | _, vNull => false
  | vInt a, vInt b => decide (a ≤ b)
  | vBool a, vBool b => !a || b
  | vInt _, _ => true
  | _, vInt _ => false
  | vBool _, _ => true
  | _, vBool _ => false
  | vStr a, vStr b => a == b || decide (a < b)

/-- Comparator on an absent column: SQL treats it as NULL (first in ASC). -/
def optValLe : Option Val → Option Val → Bool
  | none, _ => true
  | _, none => false
  | some a, some b => valLe a b

/-- Row comparator for `ORDER BY key dir`. -/
def rowLe (key : String) (asc : Bool) (r₁ r₂ : Obj) : Bool :=
  if asc then optValLe (oget key r₁) (oget key r₂)
  else optValLe (oget key r₂) (oget key r₁)

/-- `LIMIT`/`OFFSET` clauses as emitted by `findAll`: the clause is only
appended for a truthy (nonzero) `_limit`, and `OFFSET` only for a truthy
`_offset` alongside it. -/
def applyLimit (lim off : Option Nat) (l : List Obj) : List Obj :=
  match lim with
  | none => l
  | some n =>
    if n = 0 then l
    else
      match off with
      | none => l.take n
      | some m => if m = 0 then l.take n else (l.drop m).take n

/-- `findUnsynced(tableName)`:
`SELECT * FROM t WHERE synced = 0 ORDER BY updated_at ASC` — the one read
path that sees soft-deleted rows. -/
def findUnsynced (tbl : Table) : List Obj :=
  sortByLe (rowLe "updated_at" true)
    (tbl.filter (fun r => decide (oget "synced" r = some (vInt 0))))

/-- `findAll(tableName, conditions)`: equality filter over the non-special
condition keys on top of `deleted = 0`, `ORDER BY _orderBy _orderDir`
(default `created_at DESC`; the direction defaults to DESC), then
`LIMIT`/`OFFSET`. -/
def findAll (tbl : Table) (whereEq : Obj) (orderBy : Option String)
    (orderDescGiven : Option Bool) (lim off : Option Nat) : List Obj :=
  let filtered := tbl.filter (fun r =>
    decide (oget "deleted" r = some (vInt 0)) &&
    whereEq.all (fun kv => decide (oget kv.1 r = some (toSql kv.2))))
  let key := orderBy.getD "created_at"
  let asc : Bool :=
    match orderBy with
    | some _ => !(orderDescGiven.getD true)
    | none => false
  applyLimit lim off (sortByLe (rowLe key asc) filtered)

/-! ## SyncManager download pass (sync-manager.ts, `syncTable` step 2) -/

/-- JS `record.updated_at > existing.updated_at`: a numeric comparison that
is false whenever either side is not a number (comparisons against
`undefined` are false).  The remote client has already converted the
remote textual timestamps to integer epoch-milliseconds. -/
def jsGt : Option Val → Option Val → Bool
  | some (vInt a), some (vInt b) => decide (b < a)
  | _, _ => false

/-- The object the sync manager passes to `insert` for a remote record
absent locally: `{ id, ...data, created_at, updated_at, synced, deleted }`
where `data` is the record stripped of the five system keys.  As a
key-to-value mapping this agrees with the record itself on every domain
key, and `insert` overwrites all five system keys regardless of what the
caller supplied, so the record is passed through unchanged. -/
def syncInsertArg (r : Obj) : Obj := r

/-- The object the sync manager passes to `update` when the remote side
wins: `{ ...data, synced }` where `data` is the record stripped of `id`,
`created_at` and `synced`, with `synced` re-added (same value, at the
end).  With unique keys the re-ordering of `synced` is irrelevant: the
trailing `synced = 0` of the UPDATE statement is rightmost either way. -/
def lwwUpdateArg (r : Obj) : Obj :=
  r.filter (fun kv => !(kv.1 == "id") && !(kv.1 == "created_at"))

/-- One iteration of the download loop for one remote record: look the id
up locally with `findById` (which excludes soft-deleted rows); if absent,
insert the reconstructed record (an insert failure would propagate out of
the loop); if present and the remote modification time is strictly newer,
apply the last-write-wins update; otherwise leave the store untouched. -/
def downloadStep (tbl : Table) (r : Obj) (freshId : String) (now : Int) :
    Except String Table :=
  match oget "id" r with
  | some (vStr rid) =>
    match findById tbl rid with
    | none => (insert tbl (syncInsertArg r) freshId now).map (·.1)
    | some existing =>
      if jsGt (oget "updated_at" r) (oget "updated_at" existing) then
        .ok (update tbl rid (lwwUpdateArg r) now)
      else
        .ok tbl
  | _ =>
    -- a record without a string id matches no local row (`id = NULL`)
    -- and falls into the insert branch
    (insert tbl (syncInsertArg r) freshId now).map (·.1)

/-- The download pass over the fetched remote records, in fetch order.
`freshIds` supplies one generated uuid per potential insert and `now` the
clock reading; an uncaught per-record failure aborts the remaining
records (there is no per-record isolation in the download loop). -/
def downloadApply : Table → List Obj → List String → Int → Except String Table
  | tbl, [], _, _ => .ok tbl
  | tbl, _ :: _, [], _ => .ok tbl
  | tbl, r :: rs, f :: fs, now =>
    (downloadStep tbl r f now).bind (fun t => downloadApply t rs fs now)

/-! ## SyncManager status machine (sync-manager.ts, `sync`) -/

/-- The process-wide sync status record. -/
structure SyncStatus where
  lastSync : Option Int
  pendingCount : Nat
  isSyncing : Bool
  error : Option String
  deriving DecidableEq, Repr

/-- One call to `sync()`.  `runTables` is the sequential per-table
upload/download work, returning the resulting local store and the message
of an uncaught cycle-level failure, if any.  `sync()` never reads the
clock at entry; the single `Date.now()` of the success path is evaluated
after all tables completed, so the clock readings at entry and at that
point are passed as `startTime` (unused by the code) and `endTime`.
The guard makes an in-progress cycle a no-op; otherwise `isSyncing` is
raised and `error` cleared, the tables run, the success path records
`endTime` and clears the pending count, the failure path records the
message and leaves `lastSync`/`pendingCount` alone, and the `finally`
block drops `isSyncing` again. -/
def sync {α : Type} (st : SyncStatus) (store : α)
    (runTables : α → α × Option String) (startTime endTime : Int) :
    SyncStatus × α :=
  if st.isSyncing then (st, store)
  else
    let stBusy : SyncStatus := { st with isSyncing := true, error := none }
    match runTables store with
    | (s', none) =>
      ({ stBusy with lastSync := some endTime, pendingCount := 0, isSyncing := false }, s')
    | (s', some msg) =>
      ({ stBusy with error := some msg, isSyncing := false }, s')

/-! ## MigrationManager (migration-manager.ts)

The decision logic of `applyMigrations` consults only introspected names:
`checkTableExists` / `PRAGMA table_info` / `checkIndexExists` read
`sqlite_master`, and the registry supplies the declared table, column and
index names.  The bodies of the column definitions (types, constraints)
only shape the emitted SQL text, never which structural operation runs,
so the store is modelled at that metadata level. -/

/-- The constraint flags of one declared column
(types.ts `ColumnDefinition`), as far as they decide whether SQLite can
add the column to an existing table: `ALTER TABLE … ADD COLUMN` rejects a
new column that is PRIMARY KEY or UNIQUE, or NOT NULL without a default
value.  (`hasDefault` is `defaultValue !== undefined`; the registry's
defaults are all non-null constants, which SQLite accepts.) -/
structure ColDef where
  primaryKey : Bool
  unique : Bool
  notNull : Bool
  hasDefault : Bool
  deriving DecidableEq, Repr

/-- Whether `ALTER TABLE … ADD COLUMN` accepts a column with these
constraints: no PRIMARY KEY, no UNIQUE, and NOT NULL only with a
default.  `CREATE TABLE` accepts all of them, so this only matters for
columns added to an already-existing table. -/
def sqliteAddable (d : ColDef) : Bool :=
  !d.primaryKey && !d.unique && (!d.notNull || d.hasDefault)

/-- The introspectable store state: tables of `sqlite_master` with their
columns, the index names, and the `_migrations` log rows
(table name, operation). -/
structure DbState where
  tables : List (String × List String)
  indexes : List String
  log : List (String × String)
  deriving DecidableEq, Repr

/-- Look a table up in `sqlite_master` by name (names are unique there;
the first match is the table). -/
def lookupTable : List (String × List String) → String → Option (List String)
  | [], _ => none
  | t :: ts, n => if t.1 = n then some t.2 else lookupTable ts n

/-- `checkTableExists`. -/
def hasTable (s : DbState) (n : String) : Bool :=
  (lookupTable s.tables n).isSome

/-- `PRAGMA table_info`: the column names of a table (empty when the
table does not exist). -/
def colsOf (s : DbState) (n : String) : List String :=
  (lookupTable s.tables n).getD []

/-- `CREATE TABLE` (only issued when the table is absent). -/
def addTable (s : DbState) (n : String) (cols : List String) : DbState :=
  { s with tables := s.tables ++ [(n, cols)] }

/-- Success path of `ALTER TABLE … ADD COLUMN` on the (unique) table of
that name, together with the duplicate-column failure: when the column is
already physically present the statement fails, the error is swallowed by
`addColumn`, and the table is left as it was. -/
def addColTables : List (String × List String) → String → String → List (String × List String)
  | [], _, _ => []
  | t :: ts, n, c =>
    if t.1 = n then (t.1, if t.2.contains c then t.2 else t.2 ++ [c]) :: ts
    else t :: addColTables ts n c

/-- State effect of `addColumn`: the ALTER statement also fails outright —
with the error equally swallowed and the column left absent — when the
declared column carries a constraint `ALTER TABLE ADD COLUMN` rejects
(PRIMARY KEY, UNIQUE, NOT NULL without default), so the store only
changes for an addable column. -/
def addColumnState (s : DbState) (n c : String) (d : ColDef) : DbState :=
  { s with tables := if sqliteAddable d then addColTables s.tables n c else s.tables }

/-- `CREATE INDEX IF NOT EXISTS` (only issued when absent). -/
def addIndexState (s : DbState) (i : String) : DbState :=
  { s with indexes := s.indexes ++ [i] }

open Val in
/-- A remote record as handed to the download pass: remote-assigned id,
timestamps, and flags (a tombstone, already synced remotely). -/
def c1Remote : Obj :=
  [("id", vStr "r1"), ("name", vStr "x"), ("created_at", vInt 5),
   ("updated_at", vInt 7), ("synced", vBool true), ("deleted", vBool true)]

open Val in
/-- A local row with modification time `T1 = 5`. -/
def c2Local : Obj :=
  [("id", vStr "r1"), ("name", vStr "old"), ("created_at", vInt 1),
   ("updated_at", vInt 5), ("synced", vInt 1), ("deleted", vInt 0)]

open Val in
/-- A remote record with the same identifier and modification time
`T2 = 9 > T1`. -/
def c2Remote : Obj :=
  [("id", vStr "r1"), ("name", vStr "new"), ("created_at", vInt 1),
   ("updated_at", vInt 9), ("synced", vBool true), ("deleted", vBool false)]

open Val in
/-- A locally soft-deleted row (tombstone) with identifier `r1`. -/
def c10Local : Obj :=
  [("id", vStr "r1"), ("name", vStr "x"), ("created_at", vInt 1),
   ("updated_at", vInt 5), ("synced", vInt 0), ("deleted", vInt 1)]

open Val in
/-- A remote record carrying the same identifier `r1` as the local
tombstone. -/
def c10Remote : Obj :=
  [("id", vStr "r1"), ("name", vStr "fresh"), ("created_at", vInt 2),
   ("updated_at", vInt 9), ("synced", vBool true), ("deleted", vBool false)]

open Val in
/-- A two-row table used to instantiate the universally quantified
theorems. -/
def wTable : Table :=
  [[("id", vStr "a"), ("name", vStr "x"), ("created_at", vInt 1),
    ("updated_at", vInt 2), ("synced", vInt 1), ("deleted", vInt 0)],
   [("id", vStr "b"), ("name", vStr "y"), ("created_at", vInt 3),
    ("updated_at", vInt 4), ("synced", vInt 0), ("deleted", vInt 0)]]

open Val in
/-- Domain data for a concrete `insert`. -/
def wData : Obj := [("name", vStr "z")]

theorem oget_oset_self (o : Obj) (k : String) (v : Val) :
    oget k (oset o k v) = some v := by
  induction o with
  | nil => simp [oset, oget]
  | cons kv rest ih =>
    obtain ⟨k', v'⟩ := kv
    by_cases h : k' = k
    · simp [oset, oget, h]
    · simp [oset, oget, h, ih]

theorem oget_oset_ne (o : Obj) {k k' : String} (h : k' ≠ k) (v : Val) :
    oget k (oset o k' v) = oget k o := by
  induction o with
  | nil => simp [oset, oget, h]
  | cons kv rest ih =>
    obtain ⟨k₁, v₁⟩ := kv
    by_cases h₁ : k₁ = k'
    · subst h₁; simp [oset, oget, h]
    · by_cases h₂ : k₁ = k <;> simp [oset, oget, h₁, h₂, Ne.symm h, ih]

theorem oget_toRow (k : String) (o : Obj) :
    oget k (toRow o) = (oget k o).map toSql := by
  induction o with
  | nil => simp [toRow, oget]
  | cons kv rest ih =>
    obtain ⟨k', v'⟩ := kv
    by_cases h : k' = k <;>
      simpa [toRow, oget, h] using ih

theorem applyAssigns_nil (r : Obj) : applyAssigns [] r = r := rfl

theorem applyAssigns_cons (k : String) (v : Val) (l : List (String × Val)) (r : Obj) :
    applyAssigns ((k, v) :: l) r = applyAssigns l (oset r k v) := rfl

theorem applyAssigns_append (l₁ l₂ : List (String × Val)) (r : Obj) :
    applyAssigns (l₁ ++ l₂) r = applyAssigns l₂ (applyAssigns l₁ r) :=
  List.foldl_append _ _ _ _

theorem oget_applyAssigns_of_notMem (l : List (String × Val)) (r : Obj) (k : String)
    (h : k ∉ l.map Prod.fst) : oget k (applyAssigns l r) = oget k r := by
  induction l generalizing r with
  | nil => rfl
  | cons kv rest ih =>
    obtain ⟨k', v'⟩ := kv
    simp only [List.map_cons, List.mem_cons] at h
    push_neg at h
    rw [applyAssigns_cons, ih _ h.2, oget_oset_ne _ (Ne.symm h.1)]

theorem oget_applyAssigns_of_mem (l : List (String × Val)) (r : Obj) (k : String)
    (v : Val) (hnd : (l.map Prod.fst).Nodup) (hm : (k, v) ∈ l) :
    oget k (applyAssigns l r) = some v := by
  induction l generalizing r with
  | nil => cases hm
  | cons kv rest ih =>
    obtain ⟨k', v'⟩ := kv
    simp only [List.map_cons, List.nodup_cons] at hnd
    rcases List.mem_cons.mp hm with heq | hmem
    · injection heq with h₁ h₂
      subst h₁; subst h₂
      rw [applyAssigns_cons, oget_applyAssigns_of_notMem _ _ _ hnd.1, oget_oset_self]
    · have hk : k ≠ k' := by
        rintro rfl
        exact hnd.1 (List.mem_map.mpr ⟨(k, v), hmem, rfl⟩)
      rw [applyAssigns_cons]
      exact ih _ hnd.2 hmem

theorem mem_insertSorted {le : Obj → Obj → Bool} {x a : Obj} {l : List Obj} :
    a ∈ insertSorted le x l ↔ a = x ∨ a ∈ l := by
  induction l with
  | nil => simp [insertSorted]
  | cons y ys ih =>
    simp only [insertSorted]
    by_cases h : le x y <;> simp [h, ih] <;> tauto

theorem mem_sortByLe {le : Obj → Obj → Bool} {a : Obj} {l : List Obj} :
    a ∈ sortByLe le l ↔ a ∈ l := by
  induction l with
  | nil => simp [sortByLe]
  | cons x xs ih => simp [sortByLe, mem_insertSorted, ih]

theorem applyLimit_subset {lim off : Option Nat} {l : List Obj} {a : Obj}
    (h : a ∈ applyLimit lim off l) : a ∈ l := by
  cases lim with
  | none => exact h
  | some n =>
    by_cases hn : n = 0
    · simpa [applyLimit, hn] using h
    · cases off with
      | none =>
        simp only [applyLimit, hn, if_false] at h
        exact List.take_subset _ _ h
      | some m =>
        by_cases hm : m = 0
        · simp only [applyLimit, hn, hm, if_false, if_true, if_pos] at h
          exact List.take_subset _ _ h
        · simp only [applyLimit, hn, hm, if_false] at h
          exact List.drop_subset _ _ (List.take_subset _ _ h)

/-! # Claim theorems: the sync engine's status machine -/

/-- C7 (counterexample): a cycle that starts at clock reading 0 and
completes successfully at clock reading 5 records `lastSync = 5`, the
completion time — not the cycle's start time 0 as the claim states. -/
theorem sync_success_lastSync_ne_startTime :
    (sync (⟨some 2, 3, false, none⟩ : SyncStatus) (0 : Nat)
        (fun s => (s, none)) 0 5).1.lastSync = some 5 ∧
    some (5 : Int) ≠ some (0 : Int) :=
  ⟨rfl, by decide⟩

/-- C7 (amended): when a sync cycle completes all tables without an
uncaught failure, the Sync Status's last-successful-sync timestamp is set
to the clock reading taken at the cycle's completion (`Date.now()` is
evaluated only after the last table, so the value is the completion time,
not the start time), the pending count is set to zero, the error field is
cleared and the engine is idle. -/
theorem sync_success_records_completion_time {α : Type} (st : SyncStatus)
    (store : α) (runTables : α → α × Option String) (startTime endTime : Int)
    (hidle : st.isSyncing = false) (hok : (runTables store).2 = none) :
    (sync st store runTables startTime endTime).1 =
      { lastSync := some endTime, pendingCount := 0, isSyncing := false,
        error := none } := by
  rcases hrun : runTables store with ⟨s₂, e⟩
  cases e with
  | none => simp [sync, hidle, hrun]
  | some m => rw [hrun] at hok; simp at hok

/-- Witness for the amended C7 at a concrete input. -/
theorem sync_success_records_completion_time_witness :
    (sync (⟨some 2, 3, false, none⟩ : SyncStatus) (0 : Nat)
        (fun s => (s, none)) 0 5).1 =
      { lastSync := some 5, pendingCount := 0, isSyncing := false,
        error := none } :=
  sync_success_records_completion_time _ _ _ _ _ rfl rfl

/-- C8: an uncaught cycle-level failure records the error message in the
Sync Status's error field, leaves the previous last-successful-sync
timestamp (and pending count) unchanged, and ends with the engine idle;
the partially synced store is kept as the tables left it. -/
theorem sync_failure_records_error_keeps_watermark {α : Type} (st : SyncStatus)
    (store : α) (runTables : α → α × Option String) (startTime endTime : Int)
    (s₂ : α) (msg : String)
    (hidle : st.isSyncing = false) (hrun : runTables store = (s₂, some msg)) :
    (sync st store runTables startTime endTime).1.error = some msg ∧
    (sync st store runTables startTime endTime).1.lastSync = st.lastSync ∧
    (sync st store runTables startTime endTime).1.pendingCount = st.pendingCount ∧
    (sync st store runTables startTime endTime).1.isSyncing = false ∧
    (sync st store runTables startTime endTime).2 = s₂ := by
  simp [sync, hidle, hrun]

/-- Witness for C8 at a concrete input. -/
theorem sync_failure_records_error_keeps_watermark_witness :
    (sync (⟨some 2, 3, false, none⟩ : SyncStatus) (0 : Nat)
        (fun s => (s + 1, some "boom")) 0 5).1.error = some "boom" ∧
    (sync (⟨some 2, 3, false, none⟩ : SyncStatus) (0 : Nat)
        (fun s => (s + 1, some "boom")) 0 5).1.lastSync = some 2 ∧
    (sync (⟨some 2, 3, false, none⟩ : SyncStatus) (0 : Nat)
        (fun s => (s + 1, some "boom")) 0 5).1.pendingCount = 3 ∧
    (sync (⟨some 2, 3, false, none⟩ : SyncStatus) (0 : Nat)
        (fun s => (s + 1, some "boom")) 0 5).1.isSyncing = false ∧
    (sync (⟨some 2, 3, false, none⟩ : SyncStatus) (0 : Nat)
        (fun s => (s + 1, some "boom")) 0 5).2 = 1 :=
  sync_failure_records_error_keeps_watermark
    (⟨some 2, 3, false, none⟩ : SyncStatus) 0 _ 0 5 1 "boom" rfl rfl

/-- C9: a call to `sync()` while a cycle is already in progress
(`isSyncing = true`) performs no table processing and no Sync Status
mutation: whatever the per-table work would have done, the status and the
store are returned unchanged. -/
theorem sync_noop_when_already_syncing {α : Type} (st : SyncStatus) (store : α)
    (runTables : α → α × Option String) (startTime endTime : Int)
    (hbusy : st.isSyncing = true) :
    sync st store runTables startTime endTime = (st, store) := by
  simp [sync, hbusy]

/-- Witness for C9 at a concrete input. -/
theorem sync_noop_when_already_syncing_witness :
    sync (⟨some 2, 3, true, none⟩ : SyncStatus) (0 : Nat)
      (fun s => (s + 7, some "boom")) 0 5 = (⟨some 2, 3, true, none⟩, 0) :=
  sync_noop_when_already_syncing _ _ _ _ _ rfl

/-! # Claim theorems: the download pass -/

/-- C1 (code bug): for a remote record whose identifier has no local row,
the download pass inserts a row that does NOT keep the remote-assigned
identifier, timestamps or deleted flag, and is not marked synced:
`insert` spreads its generated system fields after the caller's data, so
the stored row carries a fresh id, both timestamps equal to the local
clock, `synced = 0` and `deleted = 0`, although the remote record carried
id `r1`, `created_at = 5`, `updated_at = 7`, `deleted = true`. -/
theorem download_insert_discards_remote_fields :
    downloadApply [] [c1Remote] ["u1"] 100 =
      .ok [[("id", Val.vStr "u1"), ("name", Val.vStr "x"),
            ("created_at", Val.vInt 100), ("updated_at", Val.vInt 100),
            ("synced", Val.vInt 0), ("deleted", Val.vInt 0)]] ∧
    oget "id" c1Remote = some (Val.vStr "r1") ∧
    oget "created_at" c1Remote = some (Val.vInt 5) ∧
    oget "updated_at" c1Remote = some (Val.vInt 7) ∧
    oget "deleted" c1Remote = some (Val.vBool true) ∧
    Val.vStr "u1" ≠ Val.vStr "r1" ∧ ((100 : Int) ≠ 5) ∧ ((100 : Int) ≠ 7) ∧
    Val.vInt 0 ≠ Val.vInt 1 :=
  ⟨rfl, rfl, rfl, rfl, rfl, by decide, by decide, by decide, by decide⟩

/-- C2 (code bug): with a local row at `T1 = 5` and a remote record at
`T2 = 9 > T1`, the download pass takes the last-write-wins branch, but
the stored row does not equal the remote record: the adapter's `UPDATE`
appends `updated_at = ?, synced = 0` after the supplied fields and SQLite
keeps the rightmost assignment per column, so the row ends with
`updated_at = 100` (the merge clock, not 9) and `synced = 0` (not true).
The domain field and the deleted flag do take the remote values. -/
theorem download_lww_update_not_remote_values :
    downloadApply [c2Local] [c2Remote] ["u9"] 100 =
      .ok [[("id", Val.vStr "r1"), ("name", Val.vStr "new"),
            ("created_at", Val.vInt 1), ("updated_at", Val.vInt 100),
            ("synced", Val.vInt 0), ("deleted", Val.vInt 0)]] ∧
    oget "updated_at" c2Local = some (Val.vInt 5) ∧
    oget "updated_at" c2Remote = some (Val.vInt 9) ∧
    ((100 : Int) ≠ 9) ∧ Val.vInt 0 ≠ Val.vInt 1 :=
  ⟨rfl, rfl, rfl, by decide, by decide⟩

/-! # Claim theorems: adapter CRUD -/

theorem toRow_keys (o : Obj) : (toRow o).map Prod.fst = o.map Prod.fst := by
  simp [toRow, List.map_map, Function.comp]

/-- C5: `insert(table, data)` stores a record carrying the freshly
generated identifier (a string, hence non-null), `created_at` equal to
`updated_at` and both equal to the current clock, `synced = 0` and
`deleted = 0`; the call returns that identifier, and `findById` on it
yields exactly that record.  The hypothesis is the freshness of the
generated uuid (no existing row carries it). -/
theorem insert_generates_system_fields (tbl : Table) (data : Obj)
    (freshId : String) (now : Int)
    (hfresh : ∀ r ∈ tbl, oget "id" r ≠ some (vStr freshId)) :
    ∃ row, insert tbl data freshId now = .ok (tbl ++ [row], freshId) ∧
      oget "id" row = some (vStr freshId) ∧
      oget "created_at" row = some (vInt now) ∧
      oget "updated_at" row = some (vInt now) ∧
      oget "synced" row = some (vInt 0) ∧
      oget "deleted" row = some (vInt 0) ∧
      findById (tbl ++ [row]) freshId = some row := by
  have hguard : (tbl.any (fun r => decide (oget "id" r = some (vStr freshId)))) = false := by
    simp only [List.any_eq_false, decide_eq_true_eq]
    exact hfresh
  refine ⟨toRow (oset (oset (oset (oset (oset data "id" (vStr freshId))
      "created_at" (vInt now)) "updated_at" (vInt now))
      "synced" (vBool false)) "deleted" (vBool false)), ?_, ?_, ?_, ?_, ?_, ?_, ?_⟩
  · simp [insert, hguard]
  · rw [oget_toRow, oget_oset_ne _ (by decide), oget_oset_ne _ (by decide),
      oget_oset_ne _ (by decide), oget_oset_ne _ (by decide), oget_oset_self]
    rfl
  · rw [oget_toRow, oget_oset_ne _ (by decide), oget_oset_ne _ (by decide),
      oget_oset_ne _ (by decide), oget_oset_self]
    rfl
  · rw [oget_toRow, oget_oset_ne _ (by decide), oget_oset_ne _ (by decide),
      oget_oset_self]
    rfl
  · rw [oget_toRow, oget_oset_ne _ (by decide), oget_oset_self]
    rfl
  · rw [oget_toRow, oget_oset_self]
    rfl
  · have hid : oget "id" (toRow (oset (oset (oset (oset (oset data "id" (vStr freshId))
        "created_at" (vInt now)) "updated_at" (vInt now))
        "synced" (vBool false)) "deleted" (vBool false))) = some (vStr freshId) := by
      rw [oget_toRow, oget_oset_ne _ (by decide), oget_oset_ne _ (by decide),
        oget_oset_ne _ (by decide), oget_oset_ne _ (by decide), oget_oset_self]
      rfl
    have hdel : oget "deleted" (toRow (oset (oset (oset (oset (oset data "id" (vStr freshId))
        "created_at" (vInt now)) "updated_at" (vInt now))
        "synced" (vBool false)) "deleted" (vBool false))) = some (vInt 0) := by
      rw [oget_toRow, oget_oset_self]
      rfl
    unfold findById
    rw [List.find?_append]
    have h₁ : tbl.find? (fun r => decide (oget "id" r = some (vStr freshId)) &&
        decide (oget "deleted" r = some (vInt 0))) = none := by
      rw [List.find?_eq_none]
      intro r hr
      simp only [Bool.and_eq_true, decide_eq_true_eq, not_and]
      intro h _
      exact hfresh r hr h
    have h₂ : List.find? (fun r => decide (oget "id" r = some (vStr freshId)) &&
        decide (oget "deleted" r = some (vInt 0)))
        [toRow (oset (oset (oset (oset (oset data "id" (vStr freshId))
          "created_at" (vInt now)) "updated_at" (vInt now))
          "synced" (vBool false)) "deleted" (vBool false))] =
        some (toRow (oset (oset (oset (oset (oset data "id" (vStr freshId))
          "created_at" (vInt now)) "updated_at" (vInt now))
          "synced" (vBool false)) "deleted" (vBool false))) := by
      apply List.find?_cons_of_pos
      simp [hid, hdel]
    rw [h₁, h₂]
    rfl

/-- Witness for C5: inserting `{name: "z"}` into the concrete table. -/
theorem insert_generates_system_fields_witness :
    ∃ row, insert wTable wData "u7" 42 = .ok (wTable ++ [row], "u7") ∧
      oget "id" row = some (vStr "u7") ∧
      oget "created_at" row = some (vInt 42) ∧
      oget "updated_at" row = some (vInt 42) ∧
      oget "synced" row = some (vInt 0) ∧
      oget "deleted" row = some (vInt 0) ∧
      findById (wTable ++ [row]) "u7" = some row :=
  insert_generates_system_fields wTable wData "u7" 42 (by decide)

/-- C6: `update(table, id, data)` changes, on the matched row, exactly the
supplied fields plus the unconditional `updated_at = now` and
`synced = 0` stamps; every other field of the matched row keeps its
value, every row with a different identifier is returned unchanged, and
when no row carries the identifier the whole table is unchanged (a no-op,
not an error — `update` is total). -/
theorem update_applies_only_supplied_fields (tbl : Table) (id : String)
    (data : Obj) (now : Int) (hnd : (data.map Prod.fst).Nodup) :
    (update tbl id data now).length = tbl.length ∧
    (∀ i (h : i < tbl.length) (h₂ : i < (update tbl id data now).length),
      (oget "id" (tbl.get ⟨i, h⟩) ≠ some (vStr id) →
        (update tbl id data now).get ⟨i, h₂⟩ = tbl.get ⟨i, h⟩) ∧
      (oget "id" (tbl.get ⟨i, h⟩) = some (vStr id) →
        oget "updated_at" ((update tbl id data now).get ⟨i, h₂⟩) = some (vInt now) ∧
        oget "synced" ((update tbl id data now).get ⟨i, h₂⟩) = some (vInt 0) ∧
        (∀ k v, (k, v) ∈ data → k ≠ "updated_at" → k ≠ "synced" →
          oget k ((update tbl id data now).get ⟨i, h₂⟩) = some (toSql v)) ∧
        (∀ k, k ∉ data.map Prod.fst → k ≠ "updated_at" → k ≠ "synced" →
          oget k ((update tbl id data now).get ⟨i, h₂⟩) = oget k (tbl.get ⟨i, h⟩)))) ∧
    ((∀ r ∈ tbl, oget "id" r ≠ some (vStr id)) → update tbl id data now = tbl) := by
  refine ⟨by simp [update], ?_, ?_⟩
  · intro i h h₂
    have hget : (update tbl id data now).get ⟨i, h₂⟩ =
        (if oget "id" (tbl.get ⟨i, h⟩) = some (vStr id) then
          applyAssigns (toRow data ++ [("updated_at", vInt now), ("synced", vInt 0)])
            (tbl.get ⟨i, h⟩)
        else tbl.get ⟨i, h⟩) := by
      simp [update]
    by_cases hid : oget "id" (tbl.get ⟨i, h⟩) = some (vStr id)
    · rw [if_pos hid] at hget
      refine ⟨fun hne => absurd hid hne, fun _ => ?_⟩
      rw [hget, applyAssigns_append, applyAssigns_cons, applyAssigns_cons]
      show _ ∧ _ ∧ _ ∧ _
      refine ⟨?_, ?_, ?_, ?_⟩
      · rw [applyAssigns_nil, oget_oset_ne _ (by decide), oget_oset_self]
      · rw [applyAssigns_nil, oget_oset_self]
      · intro k v hkv hk₁ hk₂
        rw [applyAssigns_nil, oget_oset_ne _ (Ne.symm hk₂), oget_oset_ne _ (Ne.symm hk₁)]
        refine oget_applyAssigns_of_mem _ _ _ _ ?_ ?_
        · rw [toRow_keys]; exact hnd
        · exact List.mem_map.mpr ⟨(k, v), hkv, rfl⟩
      · intro k hk hk₁ hk₂
        rw [applyAssigns_nil, oget_oset_ne _ (Ne.symm hk₂), oget_oset_ne _ (Ne.symm hk₁)]
        refine oget_applyAssigns_of_notMem _ _ _ ?_
        rw [toRow_keys]; exact hk
    · rw [if_neg hid] at hget
      exact ⟨fun _ => hget, fun hcontra => absurd hcontra hid⟩
  · intro hnone
    show tbl.map _ = tbl
    conv_rhs => rw [← List.map_id tbl]
    refine List.map_congr_left ?_
    intro r hr
    simp [hnone r hr]

/-- Witness for C6 at a concrete table, identifier and partial data. -/
theorem update_applies_only_supplied_fields_witness :
    (update wTable "a" wData 50).length = wTable.length ∧
    (∀ i (h : i < wTable.length) (h₂ : i < (update wTable "a" wData 50).length),
      (oget "id" (wTable.get ⟨i, h⟩) ≠ some (vStr "a") →
        (update wTable "a" wData 50).get ⟨i, h₂⟩ = wTable.get ⟨i, h⟩) ∧
      (oget "id" (wTable.get ⟨i, h⟩) = some (vStr "a") →
        oget "updated_at" ((update wTable "a" wData 50).get ⟨i, h₂⟩) = some (vInt 50) ∧
        oget "synced" ((update wTable "a" wData 50).get ⟨i, h₂⟩) = some (vInt 0) ∧
        (∀ k v, (k, v) ∈ wData → k ≠ "updated_at" → k ≠ "synced" →
          oget k ((update wTable "a" wData 50).get ⟨i, h₂⟩) = some (toSql v)) ∧
        (∀ k, k ∉ wData.map Prod.fst → k ≠ "updated_at" → k ≠ "synced" →
          oget k ((update wTable "a" wData 50).get ⟨i, h₂⟩) = oget k (wTable.get ⟨i, h⟩)))) ∧
    ((∀ r ∈ wTable, oget "id" r ≠ some (vStr "a")) → update wTable "a" wData 50 = wTable) :=
  update_applies_only_supplied_fields wTable "a" wData 50 (by decide)

theorem delete_row_deleted (r : Obj) (now : Int) :
    oget "deleted" (oset (oset (oset r "deleted" (vInt 1)) "synced" (vInt 0))
      "updated_at" (vInt now)) = some (vInt 1) := by
  rw [oget_oset_ne _ (by decide), oget_oset_ne _ (by decide), oget_oset_self]

theorem delete_row_synced (r : Obj) (now : Int) :
    oget "synced" (oset (oset (oset r "deleted" (vInt 1)) "synced" (vInt 0))
      "updated_at" (vInt now)) = some (vInt 0) := by
  rw [oget_oset_ne _ (by decide), oget_oset_self]

theorem delete_row_id (r : Obj) (now : Int) :
    oget "id" (oset (oset (oset r "deleted" (vInt 1)) "synced" (vInt 0))
      "updated_at" (vInt now)) = oget "id" r := by
  rw [oget_oset_ne _ (by decide), oget_oset_ne _ (by decide), oget_oset_ne _ (by decide)]

/-- C4: after `delete(table, id)` every row carrying the identifier has
`deleted = 1` and `synced = 0`; `findById` returns null and `findAll`
(under any conditions, ordering, limit and offset) never returns a row
with that identifier; `findUnsynced` does return the record — until a
`markAsSynced` call naming the identifier sets `synced = 1`, after which
`findUnsynced` no longer returns it. -/
theorem soft_delete_visibility (tbl : Table) (id : String) (now : Int)
    (hex : ∃ r ∈ tbl, oget "id" r = some (vStr id)) :
    (∀ r ∈ delete tbl id now, oget "id" r = some (vStr id) →
      oget "deleted" r = some (vInt 1) ∧ oget "synced" r = some (vInt 0)) ∧
    findById (delete tbl id now) id = none ∧
    (∀ whereEq ob odg lim off,
      ∀ r ∈ findAll (delete tbl id now) whereEq ob odg lim off,
        oget "id" r ≠ some (vStr id)) ∧
    (∃ r ∈ findUnsynced (delete tbl id now), oget "id" r = some (vStr id)) ∧
    (∀ ids, id ∈ ids →
      (∀ r ∈ markAsSynced (delete tbl id now) ids,
        oget "id" r = some (vStr id) → oget "synced" r = some (vInt 1)) ∧
      (∀ r ∈ findUnsynced (markAsSynced (delete tbl id now) ids),
        oget "id" r ≠ some (vStr id))) := by
  have key : ∀ r ∈ delete tbl id now, oget "id" r = some (vStr id) →
      oget "deleted" r = some (vInt 1) ∧ oget "synced" r = some (vInt 0) := by
    intro r hr hid
    unfold delete at hr
    obtain ⟨r₀, hr₀, rfl⟩ := List.mem_map.mp hr
    by_cases h₀ : oget "id" r₀ = some (vStr id)
    · simp only [if_pos h₀]
      exact ⟨delete_row_deleted r₀ now, delete_row_synced r₀ now⟩
    · simp only [if_neg h₀] at hid
      exact absurd hid h₀
  refine ⟨key, ?_, ?_, ?_, ?_⟩
  · rw [findById, List.find?_eq_none]
    intro r hr
    simp only [Bool.and_eq_true, decide_eq_true_eq, not_and]
    intro hid hdel₀
    rw [(key r hr hid).1] at hdel₀
    cases hdel₀
  · intro whereEq ob odg lim off r hr hid
    simp only [findAll] at hr
    have h₁ := applyLimit_subset hr
    have h₂ := mem_sortByLe.mp h₁
    have h₃ := List.mem_filter.mp h₂
    have h₄ : oget "deleted" r = some (vInt 0) := by
      have := h₃.2
      simp only [Bool.and_eq_true, decide_eq_true_eq] at this
      exact this.1
    rw [(key r h₃.1 hid).1] at h₄
    cases h₄
  · obtain ⟨r₀, hr₀, hid₀⟩ := hex
    refine ⟨oset (oset (oset r₀ "deleted" (vInt 1)) "synced" (vInt 0))
        "updated_at" (vInt now), ?_, ?_⟩
    · have hmem : oset (oset (oset r₀ "deleted" (vInt 1)) "synced" (vInt 0))
          "updated_at" (vInt now) ∈ delete tbl id now := by
        unfold delete
        exact List.mem_map.mpr ⟨r₀, hr₀, by rw [if_pos hid₀]⟩
      rw [findUnsynced]
      refine mem_sortByLe.mpr (List.mem_filter.mpr ⟨hmem, ?_⟩)
      simp [delete_row_synced]
    · rw [delete_row_id]
      exact hid₀
  · intro ids hin
    have hne : ids.isEmpty = false := by
      cases ids with
      | nil => cases hin
      | cons a l => rfl
    have partA : ∀ r ∈ markAsSynced (delete tbl id now) ids,
        oget "id" r = some (vStr id) → oget "synced" r = some (vInt 1) := by
      intro r hr hid
      simp only [markAsSynced, hne, Bool.false_eq_true, if_false] at hr
      obtain ⟨r₁, hr₁, rfl⟩ := List.mem_map.mp hr
      by_cases hany : ids.any (fun i => decide (oget "id" r₁ = some (vStr i))) = true
      · simp only [if_pos hany]
        exact oget_oset_self _ _ _
      · simp only [if_neg hany] at hid
        exact absurd (List.any_eq_true.mpr ⟨id, hin, by simp [hid]⟩) hany
    refine ⟨partA, ?_⟩
    intro r hr hid
    rw [findUnsynced] at hr
    have h₁ := List.mem_filter.mp (mem_sortByLe.mp hr)
    have h₂ : oget "synced" r = some (vInt 0) := by
      have := h₁.2
      simpa using this
    rw [partA r h₁.1 hid] at h₂
    cases h₂

/-- Witness for C4 at a concrete table and identifier. -/
theorem soft_delete_visibility_witness :
    findById (delete wTable "a" 10) "a" = none ∧
    (∃ r ∈ findUnsynced (delete wTable "a" 10), oget "id" r = some (vStr "a")) ∧
    (∀ r ∈ findUnsynced (markAsSynced (delete wTable "a" 10) ["a"]),
      oget "id" r ≠ some (vStr "a")) := by
  have h := soft_delete_visibility wTable "a" 10 (by decide)
  exact ⟨h.2.1, h.2.2.2.1, (h.2.2.2.2 ["a"] (by decide)).2⟩

/-- C10 (counterexample): a remote record whose identifier `r1` matches a
locally soft-deleted row does take the insert branch, but no
duplicate-primary-key insert is attempted and no constraint-violation
error is raised: the result is a successful insert of a second row under
the freshly generated identifier `u2 ≠ r1`, because `insert` overrides
the identifier the sync manager passed in. -/
theorem download_tombstone_no_constraint_violation :
    downloadApply [c10Local] [c10Remote] ["u2"] 100 =
      .ok [c10Local,
           [("id", vStr "u2"), ("name", vStr "fresh"), ("created_at", vInt 100),
            ("updated_at", vInt 100), ("synced", vInt 0), ("deleted", vInt 0)]] ∧
    oget "id" c10Remote = some (vStr "r1") ∧
    oget "id" c10Local = some (vStr "r1") ∧
    oget "deleted" c10Local = some (vInt 1) ∧
    vStr "u2" ≠ vStr "r1" :=
  ⟨rfl, rfl, rfl, rfl, by decide⟩

/-- C10 (amended): the download pass checks local existence with
`findById`, which excludes soft-deleted rows, so for every remote record
whose identifier matches only locally soft-deleted rows the engine takes
the insert branch; but because `insert` overrides the identifier with the
freshly generated uuid, the attempted row does not carry the existing
identifier: the insert succeeds (no constraint violation) and appends a
second local row for the logical record under a new identifier. -/
theorem download_tombstone_takes_insert_branch (tbl : Table) (rec : Obj)
    (rid freshId : String) (now : Int)
    (hrid : oget "id" rec = some (vStr rid))
    (hsome : ∃ r ∈ tbl, oget "id" r = some (vStr rid))
    (hdel : ∀ r ∈ tbl, oget "id" r = some (vStr rid) →
      oget "deleted" r = some (vInt 1))
    (hfresh : ∀ r ∈ tbl, oget "id" r ≠ some (vStr freshId)) :
    ∃ row, downloadApply tbl [rec] [freshId] now = .ok (tbl ++ [row]) ∧
      oget "id" row = some (vStr freshId) ∧ freshId ≠ rid := by
  have hnefr : freshId ≠ rid := by
    obtain ⟨r, hr, hid⟩ := hsome
    rintro rfl
    exact hfresh r hr hid
  have hfind : findById tbl rid = none := by
    rw [findById, List.find?_eq_none]
    intro r hr
    simp only [Bool.and_eq_true, decide_eq_true_eq, not_and]
    intro hid h₀
    rw [hdel r hr hid] at h₀
    cases h₀
  have hguard : (tbl.any fun r => decide (oget "id" r = some (vStr freshId))) = false := by
    simp only [List.any_eq_false, decide_eq_true_eq]
    exact hfresh
  have hstep : downloadStep tbl rec freshId now =
      .ok (tbl ++ [toRow (oset (oset (oset (oset (oset rec "id" (vStr freshId))
        "created_at" (vInt now)) "updated_at" (vInt now))
        "synced" (vBool false)) "deleted" (vBool false))]) := by
    unfold downloadStep
    rw [hrid]
    dsimp only
    rw [hfind]
    simp only [insert, syncInsertArg, hguard, Bool.false_eq_true, if_false]
    rfl
  refine ⟨toRow (oset (oset (oset (oset (oset rec "id" (vStr freshId))
      "created_at" (vInt now)) "updated_at" (vInt now))
      "synced" (vBool false)) "deleted" (vBool false)), ?_, ?_, hnefr⟩
  · rw [show downloadApply tbl [rec] [freshId] now =
        (downloadStep tbl rec freshId now).bind
          (fun t => downloadApply t [] [] now) from rfl, hstep]
    rfl
  · rw [oget_toRow, oget_oset_ne _ (by decide), oget_oset_ne _ (by decide),
      oget_oset_ne _ (by decide), oget_oset_ne _ (by decide), oget_oset_self]
    rfl

/-- Witness for the amended C10 at the concrete tombstone scenario. -/
theorem download_tombstone_takes_insert_branch_witness :
    ∃ row, downloadApply [c10Local] [c10Remote] ["u2"] 100 =
        .ok ([c10Local] ++ [row]) ∧
      oget "id" row = some (vStr "u2") ∧ "u2" ≠ "r1" :=
  download_tombstone_takes_insert_branch [c10Local] c10Remote "r1" "u2" 100
    rfl (by decide) (by decide) (by decide)

/-! # Migration idempotence: primitive lemmas -/

theorem lookupTable_cons (k : String) (cols : List String)
    (ts : List (String × List String)) (m : String) :
    lookupTable ((k, cols) :: ts) m = if k = m then some cols else lookupTable ts m := rfl

theorem addColTables_cons (k : String) (cols : List String)
    (ts : List (String × List String)) (n c : String) :
    addColTables ((k, cols) :: ts) n c =
      if k = n then (k, if cols.contains c then cols else cols ++ [c]) :: ts
      else (k, cols) :: addColTables ts n c := rfl

theorem lookupTable_addColTables (l : List (String × List String)) (n c m : String) :
    lookupTable (addColTables l n c) m =
      if m = n then
        (lookupTable l m).map (fun cols => if cols.contains c then cols else cols ++ [c])
      else lookupTable l m := by
  induction l with
  | nil => simp [addColTables, lookupTable]
  | cons t ts ih =>
    obtain ⟨k, cols⟩ := t
    by_cases hk : k = n <;> by_cases hm : k = m
    · subst hk; subst hm
      simp [addColTables_cons, lookupTable_cons]
    · subst hk
      simp [addColTables_cons, lookupTable_cons, hm, Ne.symm hm]
    · subst hm
      simp [addColTables_cons, lookupTable_cons, hk]
    · simp [addColTables_cons, lookupTable_cons, hk, hm, ih]

theorem hasTable_addIndexState (s : DbState) (i n : String) :
    hasTable (addIndexState s i) n = hasTable s n := rfl

theorem colsOf_addIndexState (s : DbState) (i n : String) :
    colsOf (addIndexState s i) n = colsOf s n := rfl

theorem colsOf_addColumnState_ne {s : DbState} {m : String} (n c : String)
    (d : ColDef) (h : ¬ m = n) : colsOf (addColumnState s n c d) m = colsOf s m := by
  unfold colsOf addColumnState
  by_cases hd : sqliteAddable d = true
  · rw [if_pos hd, lookupTable_addColTables, if_neg h]
  · rw [if_neg hd]

theorem indexes_addTable (s : DbState) (n : String) (cols : List String) :
    (addTable s n cols).indexes = s.indexes := rfl

theorem indexes_addColumnState (s : DbState) (n c : String) (d : ColDef) :
    (addColumnState s n c d).indexes = s.indexes := rfl

/-! ## The additive-growth order -/

end Selfie
